import Mathlib

/-!
# Verification of the canvas-mcp pagination / anonymization / error-normalization core

Shallow embedding of the repository's core modules:

* `src/canvasClient.ts` — the `CanvasClient` class: the generic verbs
  (`get`, `post`, `put`, `delete`), the paginated aggregation loop
  `fetchAllPages`, and the centralized `handleError`.
* `src/anonymizer.ts` — the `DataAnonymizer` class: the process-wide
  identity → pseudonym map, `anonymizeUser`, `anonymizeUsers`,
  `anonymizeSubmission`, `anonymizeSubmissions`, `anonymizeAssignment`.

Modelling conventions:

* JS objects are Lean structures; fields the code never consults are kept
  in an opaque `rest` association bag so that frame ("all other fields
  unchanged") properties are statable.
* JS `undefined`/absent fields are `Option.none`; JS truthiness tests on
  fields (`!user.id`, `user.email ?`, `if (errors)`) are modelled exactly,
  including their falsy corner cases (`0`, `""`, `null`, `false`).
* Upstream user ids are numbers (as in the Canvas API); `id.toString()`
  is decimal rendering, embedded as `natToString` below.
* The mutable static state of `DataAnonymizer` is threaded explicitly as
  an `AnonState` value; a sequence of calls within one process lifetime is
  a left-to-right fold starting at `initState` (map empty, counter 1).
* The `while (hasMore)` loop of `fetchAllPages` is fuel-indexed; `none`
  means the loop was still running when the fuel ran out.  The list of
  page numbers passed to `this.get` is logged so request counts are
  statable.
* A JS function returning one of two distinct object expressions is
  additionally tagged with a `Bool` recording whether the returned value
  was a freshly constructed object literal (`true` for `return { ...u }`)
  or the argument itself (`false` for `return user`), so that
  reference-identity claims are statable.
-/

/-! ## Decimal rendering of numbers (JS `Number.prototype.toString`) -/

/-- The decimal digit characters of `n`, most significant first
(the rendering used by JS template literals and `toString()`).
Fuel-indexed so it is structurally recursive; any `fuel > n` suffices,
since the argument at least halves every step. -/
def toDecDigitsAux : Nat → Nat → List Char
  | 0, _ => []
  | fuel + 1, n =>
    if n < 10 then [Nat.digitChar n]
    else toDecDigitsAux fuel (n / 10) ++ [Nat.digitChar (n % 10)]

/-- Decimal string of a natural number, as JS `toString()` renders it. -/
def natToString (n : Nat) : String :=
  String.mk (toDecDigitsAux (n + 1) n)

/-! ## The anonymizer (`src/anonymizer.ts`, class `DataAnonymizer`) -/

/-- A user-shaped record: `id`, `name`, `display_name`, `email`, `role`
are the fields the anonymizer reads or writes; every other property of
the JS object is kept verbatim in the `rest` bag. -/
structure User where
  id : Option Nat
  name : Option String
  display_name : Option String
  email : Option String
  role : Option String
  rest : List (String × String)
deriving DecidableEq

/-- A submission comment: an optional `author` user plus untouched
properties. -/
structure Comment where
  author : Option User
  rest : List (String × String)
deriving DecidableEq

/-- A submission: optional nested `user`, optional `submission_comments`
list, untouched properties. -/
structure Submission where
  user : Option User
  submission_comments : Option (List Comment)
  rest : List (String × String)
deriving DecidableEq

/-- An assignment: optional nested `submission`, untouched properties. -/
structure Assignment where
  submission : Option Submission
  rest : List (String × String)
deriving DecidableEq

/-- The static state of `DataAnonymizer`: the insertion-ordered
`userNameMap` (a JS `Map`) and `userCounter`. -/
structure AnonState where
  map : List (String × String)
  counter : Nat
deriving DecidableEq

/-- The state at process start: empty map, counter 1
(`userNameMap = new Map()`, `userCounter = 1`). -/
def initState : AnonState := ⟨[], 1⟩

/-- JS truthiness of `user.id` (`!user.id` fails): the field is present
and nonzero. -/
def hasId (u : User) : Bool :=
  match u.id with
  | some n => n != 0
  | none => false

/-- `user.id.toString()`. -/
def uidOf (u : User) : String :=
  natToString (u.id.getD 0)

/-- JS truthiness of `user.email` (`user.email ? … : undefined`): present
and nonempty. -/
def emailTruthy (u : User) : Bool :=
  match u.email with
  | some s => s != ""
  | none => false

/-- The pseudonym string assigned at counter value `i`:
`` `Student ${i}` ``. -/
def pseudonym (i : Nat) : String :=
  "Student " ++ natToString i

/-- The object literal `anonymizeUser` returns in its main path:
`{ ...user, name, display_name, email }` with both display fields set to
the pseudonym `p` and the email replaced by the synthetic placeholder
(JS `user.email ? ` ``student${userId}@example.com`` ` : undefined`). -/
def anonymizeOut (p : String) (u : User) : User :=
  { u with
    name := some p
    display_name := some p
    email := if emailTruthy u then some ("student" ++ uidOf u ++ "@example.com") else none }

/-- `DataAnonymizer.anonymizeUser`, state-threaded.  The third component
records whether a fresh object literal was returned (`true`) or the
argument itself (`false`, the `if (!user || !user.id) return user` path). -/
def anonymizeUserCore (st : AnonState) (u : User) : AnonState × User × Bool :=
  if hasId u then
    let userId := uidOf u
    let st1 : AnonState :=
      if (st.map.lookup userId).isSome then st
      else { map := st.map ++ [(userId, pseudonym st.counter)], counter := st.counter + 1 }
    let anonymizedName := (st1.map.lookup userId).getD ""
    (st1, anonymizeOut anonymizedName u, true)
  else
    (st, u, false)

/-- `anonymizeUser` as most claims see it: state and returned record. -/
def anonymizeUser (st : AnonState) (u : User) : AnonState × User :=
  let r := anonymizeUserCore st u
  (r.1, r.2.1)

/-- `DataAnonymizer.anonymizeUsers`: `users.map(u => anonymizeUser(u))`,
the static state threading left to right. -/
def anonymizeUsers (st : AnonState) : List User → AnonState × List User
  | [] => (st, [])
  | u :: us =>
    let r := anonymizeUser st u
    let rs := anonymizeUsers r.1 us
    (rs.1, r.2 :: rs.2)

/-- The per-comment body of `anonymizeSubmission`'s map: copy the
comment; replace its author only when
`comment.author && comment.author.role === 'student'`. -/
def anonymizeComment (st : AnonState) (c : Comment) : AnonState × Comment :=
  match c.author with
  | some a =>
    if a.role = some "student" then
      let r := anonymizeUser st a
      (r.1, { c with author := some r.2 })
    else (st, c)
  | none => (st, c)

/-- `submission_comments.map(comment => …)`, state threaded in order. -/
def anonymizeComments (st : AnonState) : List Comment → AnonState × List Comment
  | [] => (st, [])
  | c :: cs =>
    let r := anonymizeComment st c
    let rs := anonymizeComments r.1 cs
    (rs.1, r.2 :: rs.2)

/-- `DataAnonymizer.anonymizeSubmission`: shallow copy; anonymize the
nested `user` when present; map over `submission_comments` when present. -/
def anonymizeSubmission (st : AnonState) (s : Submission) : AnonState × Submission :=
  let ru : AnonState × Option User :=
    match s.user with
    | some u =>
      let r := anonymizeUser st u
      (r.1, some r.2)
    | none => (st, s.user)
  let rc : AnonState × Option (List Comment) :=
    match s.submission_comments with
    | some cs =>
      let r := anonymizeComments ru.1 cs
      (r.1, some r.2)
    | none => (ru.1, s.submission_comments)
  (rc.1, { s with user := ru.2, submission_comments := rc.2 })

/-- `DataAnonymizer.anonymizeAssignment`: shallow copy; anonymize the
nested `submission` when present. -/
def anonymizeAssignment (st : AnonState) (a : Assignment) : AnonState × Assignment :=
  match a.submission with
  | some s =>
    let r := anonymizeSubmission st s
    (r.1, { a with submission := some r.2 })
  | none => (st, a)

/-! ## The HTTP gateway error normalizer (`src/canvasClient.ts`) -/

/-- A JSON value, as far as `JSON.stringify(error.response.data.errors)`
needs one. -/
inductive Json where
  | null : Json
  | bool : Bool → Json
  | num : Int → Json
  | str : String → Json
  | arr : List Json → Json
  | obj : List (String × Json) → Json

/-- JS truthiness of a JSON value: `null`, `false`, `0` and `""` are
falsy; arrays and objects are always truthy. -/
def jsTruthy : Json → Bool
  | .null => false
  | .bool b => b
  | .num n => n != 0
  | .str s => s != ""
  | .arr _ => true
  | .obj _ => true

/-- Decimal rendering of an integer. -/
def intToString (n : Int) : String :=
  if n < 0 then "-" ++ natToString n.natAbs else natToString n.natAbs

/-- JSON string-literal quoting (the quote and backslash escapes of
`JSON.stringify`). -/
def jsonQuote (s : String) : String :=
  "\"" ++ String.join (s.data.map fun c =>
    if c = '"' then "\\\"" else if c = '\\' then "\\\\" else String.mk [c]) ++ "\""

mutual
/-- `JSON.stringify`. -/
def jsonStringify : Json → String
  | .null => "null"
  | .bool b => if b then "true" else "false"
  | .num n => intToString n
  | .str s => jsonQuote s
  | .arr xs => "[" ++ jsonStringifyList xs ++ "]"
  | .obj fs => "\x7b" ++ jsonStringifyFields fs ++ "\x7d"

/-- Comma-joined serializations of an array's elements. -/
def jsonStringifyList : List Json → String
  | [] => ""
  | [x] => jsonStringify x
  | x :: xs => jsonStringify x ++ "," ++ jsonStringifyList xs

/-- Comma-joined `"key":value` serializations of an object's fields. -/
def jsonStringifyFields : List (String × Json) → String
  | [] => ""
  | [(k, v)] => jsonQuote k ++ ":" ++ jsonStringify v
  | (k, v) :: fs => jsonQuote k ++ ":" ++ jsonStringify v ++ "," ++ jsonStringifyFields fs
end

/-- The decoded body of a non-2xx upstream response, as far as
`handleError` reads it: an optional `errors` field. -/
structure ResponseBody where
  errors : Option Json

/-- An axios-style response attached to a failure. -/
structure HttpResponse where
  data : Option ResponseBody

/-- The value caught by the gateway's `catch (error)`: an optional
attached `response` (`error.response?.data?.errors` chain), whether the
value is an `Error` instance, and its `message` when it is. -/
structure JsError where
  response : Option HttpResponse
  isError : Bool
  message : String

/-- The optional-chain `error.response?.data?.errors`. -/
def errResponseErrors (e : JsError) : Option Json :=
  match e.response with
  | none => none
  | some r =>
    match r.data with
    | none => none
    | some b => b.errors

/-- `if (error.response?.data?.errors)`: the chain produced a value and
that value is truthy. -/
def errorsFieldTruthy (e : JsError) : Bool :=
  match errResponseErrors e with
  | some v => jsTruthy v
  | none => false

/-- `CanvasClient.handleError`, returning the message of the single
`Error` it throws. -/
def handleError (e : JsError) : String :=
  if errorsFieldTruthy e then jsonStringify ((errResponseErrors e).getD .null)
  else if e.isError then e.message
  else "Unknown error occurred in CanvasClient"

namespace CanvasClient

/-- `CanvasClient.get`: the outcome of the underlying axios call is either
a decoded body or a caught failure, which `handleError` normalizes into a
single thrown `Error` (modelled as `Except.error` of its message). -/
def get {T : Type} (outcome : Except JsError T) : Except String T :=
  match outcome with
  | .ok v => .ok v
  | .error e => .error (handleError e)

/-- `CanvasClient.post`: same normalization. -/
def post {T : Type} (outcome : Except JsError T) : Except String T :=
  match outcome with
  | .ok v => .ok v
  | .error e => .error (handleError e)

/-- `CanvasClient.put`: same normalization. -/
def put {T : Type} (outcome : Except JsError T) : Except String T :=
  match outcome with
  | .ok v => .ok v
  | .error e => .error (handleError e)

/-- `CanvasClient.delete`: same normalization. -/
def delete {T : Type} (outcome : Except JsError T) : Except String T :=
  match outcome with
  | .ok v => .ok v
  | .error e => .error (handleError e)

end CanvasClient

/-! ## The paginated aggregation loop (`CanvasClient.fetchAllPages`) -/

/-- `params.per_page || 100`: the JS `||` falls back to 100 when
`per_page` is absent or `0` (falsy). -/
def resolvePerPage : Option Nat → Nat
  | none => 100
  | some n => if n = 0 then 100 else n

/-- The `while (hasMore)` loop of `fetchAllPages`.  `serve page` is the
outcome of `this.get(url, { ...params, page, per_page })` — the error
case is the normalized message a failing page request throws.  `log`
accumulates the page numbers requested, `results` the accumulated
records.  Fuel-indexed: `none` means the loop had not yet finished. -/
def fetchPagesAux {T : Type} (serve : Nat → Except String (List T)) (perPage : Nat) :
    Nat → Nat → List Nat → List T → Option (List Nat × Except String (List T))
  | 0, _, _, _ => none
  | fuel + 1, page, log, results =>
    match serve page with
    | .error e => some (log ++ [page], .error e)
    | .ok data =>
      if data.length = perPage then
        fetchPagesAux serve perPage fuel (page + 1) (log ++ [page]) (results ++ data)
      else
        some (log ++ [page], .ok (results ++ data))

/-- `CanvasClient.fetchAllPages`: page counter starts at 1, accumulator
empty; returns the requested page numbers and the outcome. -/
def fetchAllPages {T : Type} (serve : Nat → Except String (List T)) (ppParam : Option Nat)
    (fuel : Nat) : Option (List Nat × Except String (List T)) :=
  fetchPagesAux serve (resolvePerPage ppParam) fuel 1 [] []

/-- An upstream collection of `records` served through a page-numbered
endpoint honouring `page`/`per_page`: page `p` (1-based) is the `p`-th
slice of length `P`. -/
def servePages {T : Type} (records : List T) (P : Nat) (page : Nat) :
    Except String (List T) :=
  .ok ((records.drop ((page - 1) * P)).take P)

/-- A concrete upstream serving pages [10,11], [12,13], [14]: two full
pages of size 2 then a short page. -/
def serve3 : Nat → Except String (List Nat) :=
  fun p => .ok (if p = 1 then [10, 11] else if p = 2 then [12, 13] else [14])

/-- The page contents behind `serve3`. -/
def f3 : Nat → List Nat :=
  fun p => if p = 1 then [10, 11] else if p = 2 then [12, 13] else [14]

/-- A concrete upstream whose first page is full and whose second request
fails. -/
def serveE : Nat → Except String (List Nat) :=
  fun p => if p = 1 then .ok [1, 2] else .error "boom"

/-- The page contents behind `serveE` before the failure. -/
def fE : Nat → List Nat := fun _ => [1, 2]

/-- A structured upstream error payload, `errors: ["boom"]`. -/
def demoErrPayload : Json := .arr [.str "boom"]

/-- A failure carrying a structured `errors` payload. -/
def demoErr1 : JsError := ⟨some ⟨some ⟨some demoErrPayload⟩⟩, false, "ignored"⟩

/-- A plain transport failure (an `Error` with a description). -/
def demoErr2 : JsError := ⟨none, true, "socket hang up"⟩

/-- A thrown value that is neither: no response, not an `Error`. -/
def demoErr3 : JsError := ⟨none, false, ""⟩

/-- A response body carrying `errors: null` — the field is present but
JS-falsy. -/
def demoErrNull : JsError := ⟨some ⟨some ⟨some Json.null⟩⟩, false, ""⟩

/-- An `Error` instance whose own message is the empty string. -/
def demoErrEmptyMsg : JsError := ⟨none, true, ""⟩

/-! ## Specification-side definitions used by the theorems -/

/-- Decimal re-reading of a digit string (left fold), used only to prove
that the rendering is injective. -/
def valOf (ds : List Char) : Nat :=
  ds.foldl (fun a c => a * 10 + (c.toNat - 48)) 0

/-- Position of the first occurrence of `k` in `l` (length of `l` when
absent). -/
def posOf (k : String) : List String → Nat
  | [] => 0
  | a :: l => if a = k then 0 else posOf k l + 1

/-- The map holding pseudonyms `i, i+1, …` for the identities `l`, in
order. -/
def mkMapFrom (i : Nat) : List String → List (String × String)
  | [] => []
  | k :: l => (k, pseudonym i) :: mkMapFrom (i + 1) l

/-- The anonymizer state after the identities `ids` have been seen, in
that order, starting from the initial state. -/
def stateOf (ids : List String) : AnonState :=
  ⟨mkMapFrom 1 ids, ids.length + 1⟩

/-- The seen-identities list after one `anonymizeUser` call. -/
def anonStep (ids : List String) (u : User) : List String :=
  if hasId u ∧ uidOf u ∉ ids then ids ++ [uidOf u] else ids

/-- The identities of `us` in first-seen order. -/
def firstSeenIds (us : List User) : List String :=
  List.foldl anonStep [] us

/-- Concrete inputs and outputs used by the witnesses. -/
def demoA : User := ⟨some 7, some "Alice", none, some "alice@example.org", none, []⟩

/-- A second concrete user, distinct identity, no email. -/
def demoB : User := ⟨some 3, some "Bob", none, none, none, []⟩

/-- The anonymized form of `demoA` when its identity is seen first. -/
def demoOut1 : User :=
  ⟨some 7, some "Student 1", some "Student 1", some "student7@example.com", none, []⟩

/-- The anonymized form of `demoB` when its identity is seen second. -/
def demoOut2 : User := ⟨some 3, some "Student 2", some "Student 2", none, none, []⟩

/-- A record lacking the identity field. -/
def demoNoId : User := ⟨none, some "Carol", none, none, none, []⟩

/-- A record carrying the identity field with the JS-falsy value `0`. -/
def demoZeroId : User := ⟨some 0, some "Bob", none, none, none, []⟩

/-- A record carrying an identity and an email field holding the JS-falsy
empty string. -/
def demoEmptyEmail : User := ⟨some 1, none, none, some "", none, []⟩

/-- A comment author tagged with the learner role. -/
def demoStu : User := ⟨some 55, some "Stu", none, none, some "student", []⟩

/-- A comment author tagged as a teacher. -/
def demoTea : User := ⟨some 9, some "Tea", none, some "tea@school.edu", some "teacher", []⟩

/-- A submission with a nested user, one student-authored comment and one
teacher-authored comment. -/
def demoSub : Submission := ⟨some demoA, some [⟨some demoStu, []⟩, ⟨some demoTea, []⟩], []⟩

/-- The anonymized form of `demoStu` when its identity is seen second. -/
def demoStuOut : User := ⟨some 55, some "Student 2", some "Student 2", none, some "student", []⟩

/-- `st'` preserves every map entry of `st` (the anonymizer only ever
appends fresh entries, so lookups are stable across further calls). -/
def MapExt (st st' : AnonState) : Prop :=
  ∀ k v, st.map.lookup k = some v → st'.map.lookup k = some v

/-! ## Basic facts about the decimal rendering -/

theorem valOf_append_one (ds : List Char) (c : Char) :
    valOf (ds ++ [c]) = valOf ds * 10 + (c.toNat - 48) := by
  simp [valOf, List.foldl_append]

theorem digitChar_toNat (m : Nat) (h : m < 10) : (Nat.digitChar m).toNat - 48 = m := by
  interval_cases m <;> rfl

theorem valOf_toDecDigitsAux (fuel : Nat) :
    ∀ n, n < fuel → valOf (toDecDigitsAux fuel n) = n := by
  induction fuel with
  | zero => omega
  | succ f ih =>
    intro n hn
    rw [toDecDigitsAux]
    by_cases h : n < 10
    · rw [if_pos h]
      show valOf ([] ++ [Nat.digitChar n]) = n
      rw [valOf_append_one, digitChar_toNat n h]
      simp [valOf]
    · rw [if_neg h]
      have hd : n / 10 < f := by
        have := Nat.div_lt_self (show 0 < n by omega) (show 1 < 10 by omega)
        omega
      rw [valOf_append_one, ih (n / 10) hd, digitChar_toNat (n % 10) (Nat.mod_lt n (by omega))]
      omega

theorem natToString_injective : Function.Injective natToString := by
  intro m n h
  have hd : toDecDigitsAux (m + 1) m = toDecDigitsAux (n + 1) n := congrArg String.data h
  have := congrArg valOf hd
  rwa [valOf_toDecDigitsAux (m + 1) m (by omega), valOf_toDecDigitsAux (n + 1) n (by omega)]
    at this

theorem pseudonym_injective : Function.Injective pseudonym := by
  intro m n h
  apply natToString_injective
  have hd : ("Student " ++ natToString m).data = ("Student " ++ natToString n).data :=
    congrArg String.data h
  rw [String.data_append, String.data_append] at hd
  exact congrArg String.mk (List.append_cancel_left hd)

/-- The synthetic placeholder email is a nonempty string (so it is JS
truthy on a second anonymization pass). -/
theorem placeholder_ne_empty (u : User) : ("student" ++ uidOf u ++ "@example.com") ≠ "" := by
  intro h
  have hd := congrArg String.data h
  rw [String.data_append, String.data_append] at hd
  exact absurd hd (by simp [show ("student" : String).data = ['s','t','u','d','e','n','t'] from rfl])

/-! ## The anonymizer state reachable from process start -/

theorem stateOf_nil : stateOf [] = initState := rfl

theorem lookup_cons_self (k b : String) (l : List (String × String)) :
    List.lookup k ((k, b) :: l) = some b := by
  simp [List.lookup_cons]

theorem lookup_cons_ne (k a : String) (hk : k ≠ a) (b : String) (l : List (String × String)) :
    List.lookup k ((a, b) :: l) = List.lookup k l := by
  rw [List.lookup_cons, show (k == a) = false from beq_eq_false_iff_ne.2 hk]

theorem posOf_cons_self (k : String) (l : List String) : posOf k (k :: l) = 0 := by
  simp [posOf]

theorem posOf_cons_ne (k a : String) (hk : a ≠ k) (l : List String) :
    posOf k (a :: l) = posOf k l + 1 := by
  simp [posOf, hk]

theorem lookup_mkMapFrom (l : List String) : ∀ (i : Nat) (k : String),
    (mkMapFrom i l).lookup k =
      if k ∈ l then some (pseudonym (i + posOf k l)) else none := by
  induction l with
  | nil => intro i k; simp [mkMapFrom]
  | cons a l ih =>
    intro i k
    by_cases hk : k = a
    · subst hk
      rw [mkMapFrom, lookup_cons_self, if_pos (List.mem_cons_self k l), posOf_cons_self,
        Nat.add_zero]
    · have hak : a ≠ k := fun h => hk h.symm
      rw [mkMapFrom, lookup_cons_ne k a hk, ih (i + 1) k, posOf_cons_ne k a hak]
      by_cases hm : k ∈ l
      · rw [if_pos hm, if_pos (List.mem_cons_of_mem a hm)]
        have : i + 1 + posOf k l = i + (posOf k l + 1) := by omega
        rw [this]
      · rw [if_neg hm, if_neg (by
          intro hc
          rcases List.mem_cons.1 hc with h | h
          · exact hk h
          · exact hm h)]

theorem mkMapFrom_append (l : List String) : ∀ (i : Nat) (k : String),
    mkMapFrom i (l ++ [k]) = mkMapFrom i l ++ [(k, pseudonym (i + l.length))] := by
  induction l with
  | nil => intro i k; simp [mkMapFrom]
  | cons a l ih =>
    intro i k
    have harith : i + 1 + l.length = i + (l.length + 1) := by omega
    rw [List.cons_append, mkMapFrom, ih (i + 1) k, harith, mkMapFrom]
    simp

theorem posOf_append_of_mem (l l' : List String) (k : String) :
    k ∈ l → posOf k (l ++ l') = posOf k l := by
  induction l with
  | nil => simp
  | cons a l ih =>
    intro hm
    by_cases hk : a = k
    · subst hk
      rw [List.cons_append, posOf_cons_self, posOf_cons_self]
    · have hkl : k ∈ l := by
        rcases List.mem_cons.1 hm with h | h
        · exact absurd h.symm hk
        · exact h
      rw [List.cons_append, posOf_cons_ne k a hk, posOf_cons_ne k a hk, ih hkl]

theorem posOf_append_self (l : List String) (k : String) (h : k ∉ l) :
    posOf k (l ++ [k]) = l.length := by
  induction l with
  | nil => simp [posOf]
  | cons a l ih =>
    have ha : a ≠ k := fun hh => h (hh ▸ List.mem_cons_self a l)
    have hl : k ∉ l := fun hh => h (List.mem_cons_of_mem a hh)
    rw [List.cons_append, posOf_cons_ne k a ha, ih hl, List.length_cons]

theorem posOf_inj (l : List String) (k1 k2 : String) :
    l.Nodup → k1 ∈ l → k2 ∈ l → k1 ≠ k2 → posOf k1 l ≠ posOf k2 l := by
  induction l with
  | nil => simp
  | cons a l ih =>
    intro hnd h1 h2 hne
    have hnd' := List.nodup_cons.1 hnd
    by_cases e1 : a = k1
    · subst e1
      have r1 : posOf a (a :: l) = 0 := posOf_cons_self a l
      have r2 : posOf k2 (a :: l) = posOf k2 l + 1 := posOf_cons_ne k2 a hne l
      omega
    · by_cases e2 : a = k2
      · subst e2
        have r1 : posOf k1 (a :: l) = posOf k1 l + 1 := posOf_cons_ne k1 a e1 l
        have r2 : posOf a (a :: l) = 0 := posOf_cons_self a l
        omega
      · have h1' : k1 ∈ l := by
          rcases List.mem_cons.1 h1 with h | h
          · exact absurd h.symm e1
          · exact h
        have h2' : k2 ∈ l := by
          rcases List.mem_cons.1 h2 with h | h
          · exact absurd h.symm e2
          · exact h
        have r1 : posOf k1 (a :: l) = posOf k1 l + 1 := posOf_cons_ne k1 a e1 l
        have r2 : posOf k2 (a :: l) = posOf k2 l + 1 := posOf_cons_ne k2 a e2 l
        have := ih hnd'.2 h1' h2' hne
        omega

theorem anonCore_stateOf (ids : List String) (u : User) :
    anonymizeUserCore (stateOf ids) u =
      (stateOf (anonStep ids u),
       (if hasId u then anonymizeOut (pseudonym (1 + posOf (uidOf u) (anonStep ids u))) u else u),
       hasId u) := by
  by_cases h : hasId u
  · by_cases hm : uidOf u ∈ ids
    · have hstep : anonStep ids u = ids := by
        rw [anonStep, if_neg]
        intro hc
        exact hc.2 hm
      have hlk : (stateOf ids).map.lookup (uidOf u)
          = some (pseudonym (1 + posOf (uidOf u) ids)) := by
        show (mkMapFrom 1 ids).lookup (uidOf u) = _
        rw [lookup_mkMapFrom, if_pos hm]
      simp only [anonymizeUserCore, h, if_true, hlk, Option.isSome_some, Option.getD_some, hstep]
    · have hstep : anonStep ids u = ids ++ [uidOf u] := by
        rw [anonStep, if_pos ⟨h, hm⟩]
      have hlk : List.lookup (uidOf u) (mkMapFrom 1 ids) = none := by
        rw [lookup_mkMapFrom, if_neg hm]
      have hmap : mkMapFrom 1 ids ++ [(uidOf u, pseudonym (ids.length + 1))]
          = mkMapFrom 1 (ids ++ [uidOf u]) := by
        rw [mkMapFrom_append ids 1 (uidOf u), Nat.add_comm 1 ids.length]
      have hlk2 : List.lookup (uidOf u) (mkMapFrom 1 (ids ++ [uidOf u]))
          = some (pseudonym (1 + posOf (uidOf u) (ids ++ [uidOf u]))) := by
        rw [lookup_mkMapFrom, if_pos (List.mem_append_right ids (List.mem_singleton.2 rfl))]
      have hcnt : ids.length + 1 + 1 = (ids ++ [uidOf u]).length + 1 := by
        simp
      simp only [anonymizeUserCore, h, if_true, stateOf, hlk, Option.isSome_none,
        Bool.false_eq_true, if_false, hmap, hstep, hlk2, Option.getD_some, hcnt]
  · have hstep : anonStep ids u = ids := by
      rw [anonStep, if_neg]
      intro hc
      exact h hc.1
    simp only [anonymizeUserCore, h, Bool.false_eq_true, if_false, hstep]

theorem anonUser_stateOf (ids : List String) (u : User) :
    anonymizeUser (stateOf ids) u =
      (stateOf (anonStep ids u),
       if hasId u then anonymizeOut (pseudonym (1 + posOf (uidOf u) (anonStep ids u))) u
       else u) := by
  rw [anonymizeUser, anonCore_stateOf]

theorem anonStep_mem (ids : List String) (u : User) (h : hasId u = true) :
    uidOf u ∈ anonStep ids u := by
  rw [anonStep]
  by_cases hm : uidOf u ∈ ids
  · rw [if_neg (fun hc => hc.2 hm)]
    exact hm
  · rw [if_pos ⟨h, hm⟩]
    exact List.mem_append_right ids (List.mem_singleton.2 rfl)

theorem foldl_anonStep_ext (us : List User) : ∀ ids : List String,
    ∃ t, List.foldl anonStep ids us = ids ++ t := by
  induction us with
  | nil => intro ids; exact ⟨[], by simp⟩
  | cons u us ih =>
    intro ids
    obtain ⟨t, ht⟩ := ih (anonStep ids u)
    rw [List.foldl_cons, ht, anonStep]
    by_cases hc : hasId u ∧ uidOf u ∉ ids
    · rw [if_pos hc]
      exact ⟨[uidOf u] ++ t, by simp⟩
    · rw [if_neg hc]
      exact ⟨t, rfl⟩

theorem anonStep_nodup (ids : List String) (u : User) (h : ids.Nodup) :
    (anonStep ids u).Nodup := by
  rw [anonStep]
  by_cases hc : hasId u ∧ uidOf u ∉ ids
  · rw [if_pos hc]
    rw [List.nodup_append]
    exact ⟨h, List.nodup_singleton _, by
      intro a ha hb
      rw [List.mem_singleton.1 hb] at ha
      exact hc.2 ha⟩
  · rw [if_neg hc]
    exact h

theorem foldl_anonStep_nodup (us : List User) : ∀ ids : List String,
    ids.Nodup → (List.foldl anonStep ids us).Nodup := by
  induction us with
  | nil => intro ids h; exact h
  | cons u us ih =>
    intro ids h
    rw [List.foldl_cons]
    exact ih (anonStep ids u) (anonStep_nodup ids u h)

theorem anonymizeUsers_stateOf (us : List User) : ∀ ids : List String,
    (anonymizeUsers (stateOf ids) us).1 = stateOf (List.foldl anonStep ids us) ∧
    (anonymizeUsers (stateOf ids) us).2.length = us.length ∧
    ∀ (i : Nat) (u v : User), us[i]? = some u →
      (anonymizeUsers (stateOf ids) us).2[i]? = some v →
      hasId u = true →
      v.name = some (pseudonym (1 + posOf (uidOf u) (List.foldl anonStep ids us))) ∧
      uidOf u ∈ List.foldl anonStep ids us := by
  induction us with
  | nil =>
    intro ids
    refine ⟨rfl, rfl, ?_⟩
    intro i u v hu
    rw [List.getElem?_nil] at hu
    cases hu
  | cons u0 us ih =>
    intro ids
    have hunf : anonymizeUsers (stateOf ids) (u0 :: us) =
        ((anonymizeUsers (stateOf (anonStep ids u0)) us).1,
         (if hasId u0 then
            anonymizeOut (pseudonym (1 + posOf (uidOf u0) (anonStep ids u0))) u0
          else u0) :: (anonymizeUsers (stateOf (anonStep ids u0)) us).2) := by
      rw [anonymizeUsers, anonUser_stateOf]
    obtain ⟨ih1, ih2, ih3⟩ := ih (anonStep ids u0)
    rw [hunf, List.foldl_cons]
    refine ⟨ih1, by simpa using ih2, ?_⟩
    intro i u v hu hv hId
    cases i with
    | zero =>
      rw [List.getElem?_cons_zero] at hu hv
      obtain rfl : u0 = u := Option.some.inj hu
      obtain rfl := Option.some.inj hv
      rw [if_pos hId]
      obtain ⟨t, ht⟩ := foldl_anonStep_ext us (anonStep ids u0)
      have hmem : uidOf u0 ∈ anonStep ids u0 := anonStep_mem ids u0 hId
      constructor
      · show (anonymizeOut _ u0).name = _
        rw [ht, posOf_append_of_mem _ _ _ hmem]
        rfl
      · rw [ht]
        exact List.mem_append_left t hmem
    | succ i =>
      rw [List.getElem?_cons_succ] at hu hv
      exact ih3 i u v hu hv hId

/-- C2 (confirmed): for every sequence of `anonymizeUser` calls within
one process lifetime (a fold of calls starting from the initial state),
the final map assigns the identities seen, in first-seen order, the
pseudonyms "Student 1", "Student 2", …; a repeated identity always
receives the pseudonym assigned at its first sight (the two outputs carry
equal names), and distinct identities receive pairwise-distinct
pseudonyms. -/
theorem anonymizeUser_pseudonym_assignment (us : List User) :
    (anonymizeUsers initState us).1 = stateOf (firstSeenIds us) ∧
    (firstSeenIds us).Nodup ∧
    (anonymizeUsers initState us).2.length = us.length ∧
    (∀ (i : Nat) (u v : User), us[i]? = some u →
      (anonymizeUsers initState us).2[i]? = some v → hasId u = true →
      v.name = some (pseudonym (1 + posOf (uidOf u) (firstSeenIds us))) ∧
      uidOf u ∈ firstSeenIds us) ∧
    (∀ (i j : Nat) (u1 u2 v1 v2 : User),
      us[i]? = some u1 → us[j]? = some u2 →
      (anonymizeUsers initState us).2[i]? = some v1 →
      (anonymizeUsers initState us).2[j]? = some v2 →
      hasId u1 = true → hasId u2 = true →
      (uidOf u1 = uidOf u2 → v1.name = v2.name) ∧
      (uidOf u1 ≠ uidOf u2 → v1.name ≠ v2.name)) := by
  have hmain := anonymizeUsers_stateOf us []
  rw [stateOf_nil] at hmain
  obtain ⟨h1, h2, h3⟩ := hmain
  have hF : firstSeenIds us = List.foldl anonStep [] us := rfl
  have hnd : (firstSeenIds us).Nodup := by
    rw [hF]
    exact foldl_anonStep_nodup us [] List.nodup_nil
  refine ⟨by rw [hF]; exact h1, hnd, h2, ?_, ?_⟩
  · intro i u v hu hv hId
    rw [hF]
    exact h3 i u v hu hv hId
  · intro i j u1 u2 v1 v2 hu1 hu2 hv1 hv2 hId1 hId2
    obtain ⟨hn1, hm1⟩ := h3 i u1 v1 hu1 hv1 hId1
    obtain ⟨hn2, hm2⟩ := h3 j u2 v2 hu2 hv2 hId2
    rw [← hF] at hn1 hm1 hn2 hm2
    constructor
    · intro he
      rw [hn1, hn2, he]
    · intro hne heq
      rw [hn1, hn2] at heq
      have := pseudonym_injective (Option.some.inj heq)
      exact posOf_inj (firstSeenIds us) (uidOf u1) (uidOf u2) hnd hm1 hm2 hne (by omega)

/-- Witness for C2: on the concrete call sequence `[demoA, demoB, demoA]`
the repeated identity 7 receives the same pseudonym both times, and the
distinct identities 7 and 3 receive distinct pseudonyms. -/
theorem anonymizeUser_pseudonym_assignment_witness :
    (anonymizeUsers initState [demoA, demoB, demoA]).2[0]? = some demoOut1 ∧
    (anonymizeUsers initState [demoA, demoB, demoA]).2[1]? = some demoOut2 ∧
    (anonymizeUsers initState [demoA, demoB, demoA]).2[2]? = some demoOut1 ∧
    demoOut1.name = demoOut1.name ∧
    demoOut1.name ≠ demoOut2.name := by
  have h := anonymizeUser_pseudonym_assignment [demoA, demoB, demoA]
  refine ⟨rfl, rfl, rfl, ?_, ?_⟩
  · exact (h.2.2.2.2 0 2 demoA demoA demoOut1 demoOut1 rfl rfl rfl rfl rfl rfl).1 rfl
  · exact (h.2.2.2.2 0 1 demoA demoB demoOut1 demoOut2 rfl rfl rfl rfl rfl rfl).2 (by decide)

/-! ## Single-call properties of `anonymizeUser` (C7, C8, C10) -/

theorem lookup_append_of_some (l1 l2 : List (String × String)) (k v : String) :
    List.lookup k l1 = some v → List.lookup k (l1 ++ l2) = some v := by
  induction l1 with
  | nil => intro h; cases h
  | cons p l1 ih =>
    intro h
    obtain ⟨a, b⟩ := p
    by_cases hk : k = a
    · subst hk
      rw [lookup_cons_self] at h
      rw [List.cons_append, lookup_cons_self]
      exact h
    · rw [lookup_cons_ne k a hk] at h
      rw [List.cons_append, lookup_cons_ne k a hk]
      exact ih h

theorem lookup_append_of_none (l1 l2 : List (String × String)) (k : String) :
    List.lookup k l1 = none → List.lookup k (l1 ++ l2) = List.lookup k l2 := by
  induction l1 with
  | nil => intro _; rfl
  | cons p l1 ih =>
    intro h
    obtain ⟨a, b⟩ := p
    by_cases hk : k = a
    · subst hk
      rw [lookup_cons_self] at h
      cases h
    · rw [lookup_cons_ne k a hk] at h
      rw [List.cons_append, lookup_cons_ne k a hk]
      exact ih h

theorem anonCore_hasId (st : AnonState) (u : User) (h : hasId u = true) :
    ∃ p, (anonymizeUserCore st u).1.map.lookup (uidOf u) = some p ∧
      anonymizeUserCore st u = ((anonymizeUserCore st u).1, anonymizeOut p u, true) := by
  rcases hlk : st.map.lookup (uidOf u) with _ | p
  · have hnew : List.lookup (uidOf u) (st.map ++ [(uidOf u, pseudonym st.counter)])
        = some (pseudonym st.counter) := by
      rw [lookup_append_of_none _ _ _ hlk, lookup_cons_self]
    have hunf : anonymizeUserCore st u =
        ({ map := st.map ++ [(uidOf u, pseudonym st.counter)], counter := st.counter + 1 },
         anonymizeOut (pseudonym st.counter) u, true) := by
      simp only [anonymizeUserCore, h, if_true, hlk, Option.isSome_none, Bool.false_eq_true,
        if_false, hnew, Option.getD_some]
    refine ⟨pseudonym st.counter, ?_, ?_⟩
    · rw [hunf]
      exact hnew
    · rw [hunf]
  · have hunf : anonymizeUserCore st u = (st, anonymizeOut p u, true) := by
      simp only [anonymizeUserCore, h, if_true, hlk, Option.isSome_some, if_true,
        Option.getD_some]
    refine ⟨p, ?_, ?_⟩
    · rw [hunf]
      exact hlk
    · rw [hunf]

/-- C7 counterexample: the claim "the email field is the synthetic
placeholder exactly when an email was present on the input" fails on the
code.  `demoEmptyEmail` carries an email field (the empty string, which
is JS-falsy), yet the output carries no email value; and `demoZeroId`
carries an identity field (the JS-falsy `0`), yet no pseudonym is
assigned — its original name passes through. -/
theorem anonymizeUser_email_truthiness_cex :
    (anonymizeUser initState demoEmptyEmail).2.email = none ∧
    demoEmptyEmail.email = some "" ∧
    (anonymizeUser initState demoZeroId).2 = demoZeroId ∧
    demoZeroId.id = some 0 ∧
    (anonymizeUser initState demoZeroId).2.name = some "Bob" :=
  ⟨rfl, rfl, rfl, rfl, rfl⟩

/-- C7 (corrected): for every input record carrying a truthy (present and
nonzero) identity, `anonymizeUser` returns a shallow copy whose `name`
and `display_name` both equal the assigned pseudonym (the map entry for
the identity), and whose `email` is the synthetic placeholder
`student<id>@example.com` — computed from the identity alone — exactly
when a nonempty email was present on the input; otherwise the output
carries no email value. -/
theorem anonymizeUser_output_fields (st : AnonState) (u : User) (h : hasId u = true) :
    ∃ p, (anonymizeUser st u).1.map.lookup (uidOf u) = some p ∧
      (anonymizeUser st u).2.name = some p ∧
      (anonymizeUser st u).2.display_name = some p ∧
      (anonymizeUser st u).2.email =
        (if emailTruthy u then some ("student" ++ uidOf u ++ "@example.com") else none) := by
  obtain ⟨p, hp, hout⟩ := anonCore_hasId st u h
  refine ⟨p, hp, ?_, ?_, ?_⟩
  · show (anonymizeUserCore st u).2.1.name = some p
    rw [hout]
    rfl
  · show (anonymizeUserCore st u).2.1.display_name = some p
    rw [hout]
    rfl
  · show (anonymizeUserCore st u).2.1.email = _
    rw [hout]
    rfl

/-- Witness for C7: on `demoA` (identity 7, nonempty email) both display
fields become "Student 1" and the email becomes the placeholder. -/
theorem anonymizeUser_output_fields_witness :
    hasId demoA = true ∧
    (anonymizeUser initState demoA).2.name = some "Student 1" ∧
    (anonymizeUser initState demoA).2.display_name = some "Student 1" ∧
    (anonymizeUser initState demoA).2.email = some "student7@example.com" := by
  obtain ⟨p, hp, hn, hd, he⟩ := anonymizeUser_output_fields initState demoA rfl
  have hcomp : (anonymizeUser initState demoA).1.map.lookup (uidOf demoA)
      = some "Student 1" := rfl
  have hpv : p = "Student 1" := Option.some.inj (hp.symm.trans hcomp)
  subst hpv
  exact ⟨rfl, hn, hd, by rw [he]; rfl⟩

/-- C8 counterexample: the claim says the no-identity pass-through
returns a reference-distinct copy; the code's `return user` returns the
argument itself — the fresh-object tag of the embedded call is `false`
(no object literal was constructed), and the returned value is the
input. -/
theorem anonymizeUser_no_id_same_object_cex :
    (anonymizeUserCore initState demoNoId).2.2 = false ∧
    (anonymizeUserCore initState demoNoId).2.1 = demoNoId :=
  ⟨rfl, rfl⟩

/-- C8 (corrected): a record whose identity field is absent (or JS-falsy)
is passed through unchanged — the code returns the input record itself
(value-equal, the same reference, no copy constructed) with the state
untouched, rather than raising a failure. -/
theorem anonymizeUser_no_id_passthrough (st : AnonState) (u : User) (h : hasId u = false) :
    anonymizeUserCore st u = (st, u, false) := by
  rw [anonymizeUserCore, if_neg]
  rw [h]
  exact Bool.false_ne_true

/-- Witness for C8: the concrete identity-less record `demoNoId` is
returned itself with the state untouched. -/
theorem anonymizeUser_no_id_passthrough_witness :
    hasId demoNoId = false ∧
    anonymizeUserCore initState demoNoId = (initState, demoNoId, false) :=
  ⟨rfl, anonymizeUser_no_id_passthrough initState demoNoId rfl⟩

/-- C10 (confirmed): for every record with a truthy identity,
`anonymizeUser` changes only `name`, `display_name` and `email`: the
upstream `id`, the `role` and every other property (the `rest` bag) are
returned unchanged, and the replacement email embeds the upstream id
verbatim in decimal (`student<id>@example.com`), so the stable real
identifier still appears in anonymized output. -/
theorem anonymizeUser_frame (st : AnonState) (u : User) (h : hasId u = true) :
    (anonymizeUser st u).2.id = u.id ∧
    (anonymizeUser st u).2.role = u.role ∧
    (anonymizeUser st u).2.rest = u.rest ∧
    (emailTruthy u = true →
      (anonymizeUser st u).2.email
        = some ("student" ++ natToString (u.id.getD 0) ++ "@example.com")) := by
  obtain ⟨p, hp, hout⟩ := anonCore_hasId st u h
  have hshow : (anonymizeUser st u).2 = anonymizeOut p u := by
    show (anonymizeUserCore st u).2.1 = _
    rw [hout]
  rw [hshow]
  refine ⟨rfl, rfl, rfl, ?_⟩
  intro he
  show (if emailTruthy u then some ("student" ++ uidOf u ++ "@example.com") else none) = _
  rw [if_pos he]
  rfl

/-- Witness for C10: on `demoA` (id 7) the id, role and rest bag are
unchanged and the replacement email embeds `7`. -/
theorem anonymizeUser_frame_witness :
    hasId demoA = true ∧ emailTruthy demoA = true ∧
    (anonymizeUser initState demoA).2.id = some 7 ∧
    (anonymizeUser initState demoA).2.role = none ∧
    (anonymizeUser initState demoA).2.rest = [] ∧
    (anonymizeUser initState demoA).2.email
      = some ("student" ++ natToString 7 ++ "@example.com") := by
  obtain ⟨h1, h2, h3, h4⟩ := anonymizeUser_frame initState demoA rfl
  exact ⟨rfl, rfl, h1, h2, h3, h4 rfl⟩

/-! ## Idempotence of anonymization (C9) -/

theorem mapExt_refl (st : AnonState) : MapExt st st := fun _ _ h => h

theorem mapExt_trans {s1 s2 s3 : AnonState} (h1 : MapExt s1 s2) (h2 : MapExt s2 s3) :
    MapExt s1 s3 := fun k v h => h2 k v (h1 k v h)

theorem anonCore_falsy_id (st : AnonState) (u : User) (h : hasId u = false) :
    anonymizeUserCore st u = (st, u, false) := by
  rw [anonymizeUserCore, if_neg]
  rw [h]
  exact Bool.false_ne_true

theorem anonCore_mapExt (st : AnonState) (u : User) :
    MapExt st (anonymizeUserCore st u).1 := by
  intro k v hkv
  by_cases h : hasId u
  · simp only [anonymizeUserCore, h, if_true]
    by_cases hiss : (st.map.lookup (uidOf u)).isSome
    · rw [if_pos hiss]
      exact hkv
    · rw [if_neg hiss]
      exact lookup_append_of_some _ _ _ _ hkv
  · rw [anonCore_falsy_id st u (Bool.not_eq_true _ ▸ h)]
    exact hkv

theorem anonCore_present (st : AnonState) (u : User) (h : hasId u = true) (p : String)
    (hp : st.map.lookup (uidOf u) = some p) :
    anonymizeUserCore st u = (st, anonymizeOut p u, true) := by
  simp only [anonymizeUserCore, h, if_true, hp, Option.isSome_some, Option.getD_some, if_true]

theorem anonymizeOut_email (p : String) (u : User) :
    emailTruthy (anonymizeOut p u) = emailTruthy u := by
  by_cases he : emailTruthy u
  · have hmail : (anonymizeOut p u).email = some ("student" ++ uidOf u ++ "@example.com") := by
      simp [anonymizeOut, he]
    rw [he]
    simp only [emailTruthy, hmail]
    exact bne_iff_ne.2 (placeholder_ne_empty u)
  · have hmail : (anonymizeOut p u).email = none := by
      simp [anonymizeOut, he]
    simp only [Bool.not_eq_true] at he
    rw [he]
    simp only [emailTruthy, hmail]

theorem anonymizeOut_idem (p : String) (u : User) :
    anonymizeOut p (anonymizeOut p u) = anonymizeOut p u := by
  by_cases ht : emailTruthy u
  · have he : emailTruthy (anonymizeOut p u) = true := by
      rw [anonymizeOut_email p u, ht]
    rcases u with ⟨id, nm, dn, em, rl, rs⟩
    simp only [anonymizeOut, uidOf] at he ⊢
    simp only [ht, if_true] at he
    simp [he, ht]
  · have hf : emailTruthy u = false := by
      simp only [Bool.not_eq_true] at ht
      exact ht
    have he : emailTruthy (anonymizeOut p u) = false := by
      rw [anonymizeOut_email p u, hf]
    rcases u with ⟨id, nm, dn, em, rl, rs⟩
    simp only [anonymizeOut, uidOf] at he hf ⊢
    simp only [hf, Bool.false_eq_true, if_false] at he
    simp [he, hf]

theorem anonCore_reapply (st st2 : AnonState) (u : User)
    (hext : MapExt (anonymizeUserCore st u).1 st2) :
    anonymizeUserCore st2 (anonymizeUserCore st u).2.1
      = (st2, (anonymizeUserCore st u).2.1, hasId u) := by
  by_cases h : hasId u
  · obtain ⟨p, hp, hout⟩ := anonCore_hasId st u h
    rw [hout] at hp hext ⊢
    simp only at hp hext ⊢
    have hid : hasId (anonymizeOut p u) = true := h
    have hlk2 : st2.map.lookup (uidOf (anonymizeOut p u)) = some p := hext _ _ hp
    rw [anonCore_present st2 (anonymizeOut p u) hid p hlk2, anonymizeOut_idem, h]
  · have hfalse : hasId u = false := by
      simp only [Bool.not_eq_true] at h
      exact h
    rw [anonCore_falsy_id st u hfalse]
    simp only
    rw [anonCore_falsy_id st2 u hfalse, hfalse]

theorem core_keeps_role (st : AnonState) (a : User) :
    (anonymizeUserCore st a).2.1.role = a.role := by
  by_cases h : hasId a
  · obtain ⟨p, _, hout⟩ := anonCore_hasId st a h
    rw [hout]
    rfl
  · have hfalse : hasId a = false := by
      simp only [Bool.not_eq_true] at h
      exact h
    rw [anonCore_falsy_id st a hfalse]

theorem anonComment_mapExt (st : AnonState) (c : Comment) :
    MapExt st (anonymizeComment st c).1 := by
  rcases hc : c.author with _ | a
  · simp only [anonymizeComment, hc]
    exact mapExt_refl st
  · by_cases hr : a.role = some "student"
    · simp only [anonymizeComment, hc, hr, if_true]
      exact anonCore_mapExt st a
    · simp only [anonymizeComment, hc, hr, if_false]
      exact mapExt_refl st

theorem anonComments_mapExt (cs : List Comment) : ∀ st : AnonState,
    MapExt st (anonymizeComments st cs).1 := by
  induction cs with
  | nil => intro st; exact mapExt_refl st
  | cons c cs ih =>
    intro st
    simp only [anonymizeComments]
    exact mapExt_trans (anonComment_mapExt st c) (ih (anonymizeComment st c).1)

theorem anonUser_reapply (st st2 : AnonState) (u : User)
    (hext : MapExt (anonymizeUser st u).1 st2) :
    anonymizeUser st2 (anonymizeUser st u).2 = (st2, (anonymizeUser st u).2) := by
  have hcore := anonCore_reapply st st2 u hext
  simp only [anonymizeUser]
  rw [hcore]

theorem anonComment_reapply (st st2 : AnonState) (c : Comment)
    (hext : MapExt (anonymizeComment st c).1 st2) :
    anonymizeComment st2 (anonymizeComment st c).2 = (st2, (anonymizeComment st c).2) := by
  rcases c with ⟨author, rs⟩
  rcases hc : author with _ | a
  · subst hc
    simp only [anonymizeComment]
  · subst hc
    by_cases hr : a.role = some "student"
    · have hfirst : anonymizeComment st ⟨some a, rs⟩ =
          ((anonymizeUser st a).1, ⟨some (anonymizeUser st a).2, rs⟩) := by
        simp only [anonymizeComment, hr, if_true]
      rw [hfirst] at hext ⊢
      simp only at hext ⊢
      have hrole2 : (anonymizeUser st a).2.role = some "student" := by
        show (anonymizeUserCore st a).2.1.role = _
        rw [core_keeps_role]
        exact hr
      have hsecond : anonymizeComment st2 ⟨some (anonymizeUser st a).2, rs⟩ =
          ((anonymizeUser st2 (anonymizeUser st a).2).1,
           ⟨some (anonymizeUser st2 (anonymizeUser st a).2).2, rs⟩) := by
        simp only [anonymizeComment, hrole2, if_true]
      rw [hsecond, anonUser_reapply st st2 a hext]
    · have hfirst : anonymizeComment st ⟨some a, rs⟩ = (st, ⟨some a, rs⟩) := by
        simp only [anonymizeComment, hr, if_false]
      rw [hfirst] at hext ⊢
      simp only at hext ⊢
      simp only [anonymizeComment, hr, if_false]

theorem anonComments_reapply (cs : List Comment) : ∀ st st2 : AnonState,
    MapExt (anonymizeComments st cs).1 st2 →
    anonymizeComments st2 (anonymizeComments st cs).2 = (st2, (anonymizeComments st cs).2) := by
  induction cs with
  | nil => intro st st2 _; rfl
  | cons c cs ih =>
    intro st st2 hext
    simp only [anonymizeComments] at hext ⊢
    have hc : anonymizeComment st2 (anonymizeComment st c).2 = (st2, (anonymizeComment st c).2) := by
      apply anonComment_reapply st st2 c
      exact mapExt_trans (anonComments_mapExt cs (anonymizeComment st c).1) hext
    rw [hc]
    simp only
    rw [ih (anonymizeComment st c).1 st2 hext]

theorem anonSub_idem (st : AnonState) (s : Submission) :
    anonymizeSubmission (anonymizeSubmission st s).1 (anonymizeSubmission st s).2
      = anonymizeSubmission st s := by
  rcases s with ⟨usr, cms, rs⟩
  rcases usr with _ | u
  · rcases cms with _ | cs
    · rfl
    · have hfirst : anonymizeSubmission st ⟨none, some cs, rs⟩ =
          ((anonymizeComments st cs).1, ⟨none, some (anonymizeComments st cs).2, rs⟩) := by
        simp only [anonymizeSubmission]
      rw [hfirst]
      simp only [anonymizeSubmission]
      rw [anonComments_reapply cs st (anonymizeComments st cs).1 (mapExt_refl _)]
  · rcases cms with _ | cs
    · have hfirst : anonymizeSubmission st ⟨some u, none, rs⟩ =
          ((anonymizeUser st u).1, ⟨some (anonymizeUser st u).2, none, rs⟩) := by
        simp only [anonymizeSubmission]
      rw [hfirst]
      simp only [anonymizeSubmission]
      rw [anonUser_reapply st (anonymizeUser st u).1 u (mapExt_refl _)]
    · have hfirst : anonymizeSubmission st ⟨some u, some cs, rs⟩ =
          ((anonymizeComments (anonymizeUser st u).1 cs).1,
           ⟨some (anonymizeUser st u).2,
            some (anonymizeComments (anonymizeUser st u).1 cs).2, rs⟩) := by
        simp only [anonymizeSubmission]
      rw [hfirst]
      simp only [anonymizeSubmission]
      rw [anonUser_reapply st (anonymizeComments (anonymizeUser st u).1 cs).1 u
        (anonComments_mapExt cs (anonymizeUser st u).1)]
      simp only
      rw [anonComments_reapply cs (anonymizeUser st u).1
        (anonymizeComments (anonymizeUser st u).1 cs).1 (mapExt_refl _)]

theorem anonAssign_idem (st : AnonState) (a : Assignment) :
    anonymizeAssignment (anonymizeAssignment st a).1 (anonymizeAssignment st a).2
      = anonymizeAssignment st a := by
  rcases a with ⟨sub, rs⟩
  rcases sub with _ | s
  · rfl
  · have hfirst : anonymizeAssignment st ⟨some s, rs⟩ =
        ((anonymizeSubmission st s).1, ⟨some (anonymizeSubmission st s).2, rs⟩) := by
      simp only [anonymizeAssignment]
    rw [hfirst]
    simp only [anonymizeAssignment]
    rw [anonSub_idem st s]

/-- C9 (confirmed): within one process lifetime anonymization is
idempotent: re-applying `anonymizeUser` to its own output (at the state
the first application produced) returns the very same record and leaves
the state unchanged, and likewise for `anonymizeSubmission` and
`anonymizeAssignment` over their nested user references. -/
theorem anonymize_idempotent (st : AnonState) (u : User) (s : Submission) (a : Assignment) :
    anonymizeUser (anonymizeUser st u).1 (anonymizeUser st u).2 = anonymizeUser st u ∧
    anonymizeSubmission (anonymizeSubmission st s).1 (anonymizeSubmission st s).2
      = anonymizeSubmission st s ∧
    anonymizeAssignment (anonymizeAssignment st a).1 (anonymizeAssignment st a).2
      = anonymizeAssignment st a := by
  refine ⟨?_, anonSub_idem st s, anonAssign_idem st a⟩
  rw [anonUser_reapply st (anonymizeUser st u).1 u (mapExt_refl _)]

/-! ## Role-gated anonymization of submissions (C4) -/

theorem anonComment_author_none (st : AnonState) (c : Comment) (h : c.author = none) :
    anonymizeComment st c = (st, c) := by
  simp only [anonymizeComment, h]

theorem anonComment_not_student (st : AnonState) (c : Comment) (a : User)
    (h : c.author = some a) (hr : a.role ≠ some "student") :
    anonymizeComment st c = (st, c) := by
  simp only [anonymizeComment, h, hr, if_false]

theorem anonComment_student_no_id (st : AnonState) (c : Comment) (a : User)
    (h : c.author = some a) (hr : a.role = some "student") (hid : hasId a = false) :
    anonymizeComment st c = (st, c) := by
  rcases c with ⟨author, rs⟩
  simp only at h
  subst h
  simp only [anonymizeComment, hr, if_true, anonymizeUser, anonCore_falsy_id st a hid]

theorem anonComment_student_id (st : AnonState) (c : Comment) (a : User)
    (h : c.author = some a) (hr : a.role = some "student") (hid : hasId a = true) :
    ∃ p, (anonymizeComment st c).1.map.lookup (uidOf a) = some p ∧
      anonymizeComment st c =
        ((anonymizeComment st c).1, { c with author := some (anonymizeOut p a) }) := by
  obtain ⟨p, hp, hout⟩ := anonCore_hasId st a hid
  have hunf : anonymizeComment st c =
      ((anonymizeUserCore st a).1, { c with author := some (anonymizeUserCore st a).2.1 }) := by
    simp only [anonymizeComment, h, hr, if_true, anonymizeUser]
  refine ⟨p, ?_, ?_⟩
  · rw [hunf]
    exact hp
  · rw [hunf]
    simp only
    rw [hout]

theorem anonComments_spec (cs : List Comment) : ∀ st : AnonState,
    (anonymizeComments st cs).2.length = cs.length ∧
    ∀ (i : Nat) (c : Comment), cs[i]? = some c →
      ((∀ a, c.author = some a → a.role ≠ some "student") →
        (anonymizeComments st cs).2[i]? = some c) ∧
      (c.author = none → (anonymizeComments st cs).2[i]? = some c) ∧
      (∀ a, c.author = some a → a.role = some "student" → hasId a = false →
        (anonymizeComments st cs).2[i]? = some c) ∧
      (∀ a, c.author = some a → a.role = some "student" → hasId a = true →
        ∃ p, (anonymizeComments st cs).1.map.lookup (uidOf a) = some p ∧
          (anonymizeComments st cs).2[i]? = some { c with author := some (anonymizeOut p a) }) := by
  induction cs with
  | nil =>
    intro st
    refine ⟨rfl, ?_⟩
    intro i c hc
    rw [List.getElem?_nil] at hc
    cases hc
  | cons c0 cs ih =>
    intro st
    have hunf : anonymizeComments st (c0 :: cs) =
        ((anonymizeComments (anonymizeComment st c0).1 cs).1,
         (anonymizeComment st c0).2 :: (anonymizeComments (anonymizeComment st c0).1 cs).2) := by
      simp only [anonymizeComments]
    obtain ⟨ihlen, ihidx⟩ := ih (anonymizeComment st c0).1
    rw [hunf]
    refine ⟨by simpa using ihlen, ?_⟩
    intro i c hc
    cases i with
    | zero =>
      rw [List.getElem?_cons_zero] at hc
      obtain rfl : c0 = c := Option.some.inj hc
      refine ⟨?_, ?_, ?_, ?_⟩
      · intro hns
        rcases ha : c0.author with _ | a
        · rw [List.getElem?_cons_zero, anonComment_author_none st c0 ha]
        · rw [List.getElem?_cons_zero, anonComment_not_student st c0 a ha (hns a ha)]
      · intro ha
        rw [List.getElem?_cons_zero, anonComment_author_none st c0 ha]
      · intro a ha hr hid
        rw [List.getElem?_cons_zero, anonComment_student_no_id st c0 a ha hr hid]
      · intro a ha hr hid
        obtain ⟨p, hp, hout⟩ := anonComment_student_id st c0 a ha hr hid
        refine ⟨p, ?_, ?_⟩
        · exact anonComments_mapExt cs (anonymizeComment st c0).1 _ _ hp
        · rw [List.getElem?_cons_zero, hout]
    | succ i =>
      rw [List.getElem?_cons_succ] at hc
      obtain ⟨h1, h2, h3, h4⟩ := ihidx i c hc
      refine ⟨?_, ?_, ?_, ?_⟩
      · intro hns
        rw [List.getElem?_cons_succ]
        exact h1 hns
      · intro ha
        rw [List.getElem?_cons_succ]
        exact h2 ha
      · intro a ha hr hid
        rw [List.getElem?_cons_succ]
        exact h3 a ha hr hid
      · intro a ha hr hid
        obtain ⟨p, hp, hout⟩ := h4 a ha hr hid
        refine ⟨p, hp, ?_⟩
        rw [List.getElem?_cons_succ]
        exact hout

/-- C4 (confirmed): `anonymizeSubmission` pseudonymizes the nested user
reference when present (and leaves it absent when absent), and within the
comment list applies the anonymization transform to a comment's author
exactly when the author is present and its role tag equals "student":
comments whose author is absent, or has any other role, or no role, are
returned value-equal with their author's display name and email
untouched.  (A student-tagged author without a truthy identity goes
through the transform's no-op path and is likewise returned unchanged.) -/
theorem anonymizeSubmission_role_gating (st : AnonState) (s : Submission) :
    ((s.user = none → (anonymizeSubmission st s).2.user = none) ∧
     (∀ u, s.user = some u →
        (anonymizeSubmission st s).2.user = some (anonymizeUser st u).2)) ∧
    ((s.submission_comments = none →
        (anonymizeSubmission st s).2.submission_comments = none) ∧
     (∀ cs, s.submission_comments = some cs →
        ∃ cs', (anonymizeSubmission st s).2.submission_comments = some cs' ∧
          cs'.length = cs.length ∧
          ∀ (i : Nat) (c : Comment), cs[i]? = some c →
            ((∀ a, c.author = some a → a.role ≠ some "student") → cs'[i]? = some c) ∧
            (c.author = none → cs'[i]? = some c) ∧
            (∀ a, c.author = some a → a.role = some "student" → hasId a = false →
              cs'[i]? = some c) ∧
            (∀ a, c.author = some a → a.role = some "student" → hasId a = true →
              ∃ p, (anonymizeSubmission st s).1.map.lookup (uidOf a) = some p ∧
                cs'[i]? = some { c with author := some (anonymizeOut p a) }))) := by
  rcases s with ⟨usr, cms, rs⟩
  rcases usr with _ | u
  · rcases cms with _ | cs
    · refine ⟨⟨fun _ => rfl, ?_⟩, ⟨fun _ => rfl, ?_⟩⟩
      · intro u h
        cases h
      · intro cs h
        cases h
    · have hunf : anonymizeSubmission st ⟨none, some cs, rs⟩ =
          ((anonymizeComments st cs).1, ⟨none, some (anonymizeComments st cs).2, rs⟩) := by
        simp only [anonymizeSubmission]
      rw [hunf]
      refine ⟨⟨fun _ => rfl, ?_⟩, ⟨?_, ?_⟩⟩
      · intro u h
        cases h
      · intro h
        cases h
      · intro cs0 h
        obtain rfl : cs = cs0 := Option.some.inj h
        obtain ⟨hlen, hidx⟩ := anonComments_spec cs st
        exact ⟨(anonymizeComments st cs).2, rfl, hlen, hidx⟩
  · rcases cms with _ | cs
    · have hunf : anonymizeSubmission st ⟨some u, none, rs⟩ =
          ((anonymizeUser st u).1, ⟨some (anonymizeUser st u).2, none, rs⟩) := by
        simp only [anonymizeSubmission]
      rw [hunf]
      refine ⟨⟨?_, ?_⟩, ⟨fun _ => rfl, ?_⟩⟩
      · intro h
        cases h
      · intro u0 h
        obtain rfl : u = u0 := Option.some.inj h
        rfl
      · intro cs h
        cases h
    · have hunf : anonymizeSubmission st ⟨some u, some cs, rs⟩ =
          ((anonymizeComments (anonymizeUser st u).1 cs).1,
           ⟨some (anonymizeUser st u).2,
            some (anonymizeComments (anonymizeUser st u).1 cs).2, rs⟩) := by
        simp only [anonymizeSubmission]
      rw [hunf]
      refine ⟨⟨?_, ?_⟩, ⟨?_, ?_⟩⟩
      · intro h
        cases h
      · intro u0 h
        obtain rfl : u = u0 := Option.some.inj h
        rfl
      · intro h
        cases h
      · intro cs0 h
        obtain rfl : cs = cs0 := Option.some.inj h
        obtain ⟨hlen, hidx⟩ := anonComments_spec cs (anonymizeUser st u).1
        exact ⟨(anonymizeComments (anonymizeUser st u).1 cs).2, rfl, hlen, hidx⟩




/-- Witness for C4: on `demoSub` the nested user is pseudonymized, the
student comment author receives "Student 2", and the teacher comment is
returned verbatim. -/
theorem anonymizeSubmission_role_gating_witness :
    (anonymizeSubmission initState demoSub).2.user = some demoOut1 ∧
    (anonymizeSubmission initState demoSub).1.map.lookup (uidOf demoStu) = some "Student 2" ∧
    (anonymizeSubmission initState demoSub).2.submission_comments
      = some [⟨some demoStuOut, []⟩, ⟨some demoTea, []⟩] := by
  have h := anonymizeSubmission_role_gating initState demoSub
  obtain ⟨cs', hcs', hlen, hidx⟩ := h.2.2 [⟨some demoStu, []⟩, ⟨some demoTea, []⟩] rfl
  obtain ⟨p, hpLook, hs⟩ := (hidx 0 ⟨some demoStu, []⟩ rfl).2.2.2 demoStu rfl rfl rfl
  have ht := (hidx 1 ⟨some demoTea, []⟩ rfl).1 (fun a ha => by
    obtain rfl : demoTea = a := Option.some.inj ha
    decide)
  have hpv : p = "Student 2" := by
    have hcomp : (anonymizeSubmission initState demoSub).1.map.lookup (uidOf demoStu)
        = some "Student 2" := rfl
    exact Option.some.inj (hpLook.symm.trans hcomp)
  subst hpv
  refine ⟨h.1.2 demoA rfl, hpLook, ?_⟩
  have hcs2 : cs' = [⟨some demoStuOut, []⟩, ⟨some demoTea, []⟩] := by
    cases cs' with
    | nil => simp at hlen
    | cons x rest =>
      cases rest with
      | nil => simp at hlen
      | cons y rest2 =>
        cases rest2 with
        | cons z rest3 => simp at hlen
        | nil =>
          rw [List.getElem?_cons_zero] at hs
          rw [List.getElem?_cons_succ, List.getElem?_cons_zero] at ht
          obtain rfl := Option.some.inj hs
          obtain rfl := Option.some.inj ht
          rfl
  rw [hcs', hcs2]

/-! ## The paginated aggregation loop (C1, C3, C6) -/

theorem fetchPagesAux_full {T : Type} (serve : Nat → Except String (List T)) (P : Nat)
    (f : Nat → List T) (k : Nat) : ∀ (fuel page : Nat) (log : List Nat) (acc : List T),
    (∀ j, j < k → serve (page + j) = .ok (f (page + j)) ∧ (f (page + j)).length = P) →
    fetchPagesAux serve P (k + fuel) page log acc
      = fetchPagesAux serve P fuel (page + k) (log ++ List.range' page k)
          (acc ++ (List.range' page k).flatMap f) := by
  induction k with
  | zero =>
    intro fuel page log acc _
    simp [List.range']
  | succ k ih =>
    intro fuel page log acc hfull
    have h0 := hfull 0 (Nat.succ_pos k)
    rw [Nat.add_zero] at h0
    have harith : k + 1 + fuel = (k + fuel) + 1 := by omega
    rw [harith, fetchPagesAux, h0.1]
    simp only [h0.2, if_true]
    rw [ih fuel (page + 1) (log ++ [page]) (acc ++ f page) (fun j hj => by
      have hh := hfull (j + 1) (by omega)
      rwa [show page + (j + 1) = page + 1 + j from by omega] at hh)]
    have hpage : page + 1 + k = page + (k + 1) := by omega
    have hrange : List.range' page (k + 1) = page :: List.range' (page + 1) k := rfl
    rw [hpage, hrange]
    have hlog : log ++ [page] ++ List.range' (page + 1) k
        = log ++ (page :: List.range' (page + 1) k) := by simp
    have hacc : acc ++ f page ++ (List.range' (page + 1) k).flatMap f
        = acc ++ (page :: List.range' (page + 1) k).flatMap f := by
      rw [List.flatMap_cons, List.append_assoc]
    rw [hlog, hacc]

theorem fetchAllPages_short_page_run {T : Type} (serve : Nat → Except String (List T)) (f : Nat → List T)
    (pp : Option Nat) (P m : Nat) (d : List T) (fuel : Nat)
    (hpp : resolvePerPage pp = P) (hm : 1 ≤ m)
    (hfull : ∀ j, 1 ≤ j → j < m → serve j = .ok (f j) ∧ (f j).length = P)
    (hlast : serve m = .ok d) (hshort : d.length < P) (hfuel : m ≤ fuel) :
    fetchAllPages serve pp fuel
      = some (List.range' 1 m, .ok ((List.range' 1 (m - 1)).flatMap f ++ d)) := by
  obtain ⟨e, he⟩ : ∃ e, fuel - (m - 1) = e + 1 := ⟨fuel - (m - 1) - 1, by omega⟩
  have hsplit : fuel = (m - 1) + (e + 1) := by omega
  rw [fetchAllPages, hpp, hsplit]
  rw [fetchPagesAux_full serve P f (m - 1) (e + 1) 1 [] [] (fun j hj => by
    have hh := hfull (1 + j) (by omega) (by omega)
    exact hh)]
  have hpm : 1 + (m - 1) = m := by omega
  rw [hpm, fetchPagesAux, hlast]
  simp only [Nat.ne_of_lt hshort, if_false]
  rw [List.nil_append, List.nil_append]
  have hrange : List.range' 1 (m - 1) ++ [m] = List.range' 1 m := by
    have : m = (m - 1) + 1 := by omega
    rw [this, List.range'_concat]
    simp only [Nat.one_mul]
    congr 2
    omega
  rw [hrange]

/-- C6 (confirmed): if the requests for pages 1..k-1 return full pages
and the k-th page request fails, the whole aggregation fails with that
error: the result is the error alone, and none of the records
accumulated from the earlier pages appear in it — all-or-nothing. -/
theorem fetchAllPages_error_aborts {T : Type} (serve : Nat → Except String (List T)) (f : Nat → List T)
    (pp : Option Nat) (P k : Nat) (e : String) (fuel : Nat)
    (hpp : resolvePerPage pp = P) (hk : 1 ≤ k)
    (hfull : ∀ j, 1 ≤ j → j < k → serve j = .ok (f j) ∧ (f j).length = P)
    (herr : serve k = .error e) (hfuel : k ≤ fuel) :
    fetchAllPages serve pp fuel = some (List.range' 1 k, .error e) := by
  obtain ⟨e2, he2⟩ : ∃ e2, fuel - (k - 1) = e2 + 1 := ⟨fuel - (k - 1) - 1, by omega⟩
  have hsplit : fuel = (k - 1) + (e2 + 1) := by omega
  rw [fetchAllPages, hpp, hsplit]
  rw [fetchPagesAux_full serve P f (k - 1) (e2 + 1) 1 [] [] (fun j hj => by
    exact hfull (1 + j) (by omega) (by omega))]
  have hpm : 1 + (k - 1) = k := by omega
  rw [hpm, fetchPagesAux, herr]
  rw [List.nil_append]
  have hrange : List.range' 1 (k - 1) ++ [k] = List.range' 1 k := by
    have : k = (k - 1) + 1 := by omega
    rw [this, List.range'_concat]
    simp only [Nat.one_mul]
    congr 2
    omega
  rw [hrange]

theorem resolvePerPage_pos (pp : Option Nat) : 0 < resolvePerPage pp := by
  rcases pp with _ | n
  · exact Nat.succ_pos 99
  · rw [resolvePerPage]
    by_cases h : n = 0
    · rw [if_pos h]
      exact Nat.succ_pos 99
    · rw [if_neg h]
      omega

theorem slices_flatMap {T : Type} (records : List T) (P : Nat) : ∀ k : Nat,
    (List.range' 1 k).flatMap (fun j => (records.drop ((j - 1) * P)).take P)
      = records.take (k * P) := by
  intro k
  induction k with
  | zero => simp
  | succ k ih =>
    rw [List.range'_concat, List.flatMap_append, ih]
    simp only [Nat.one_mul, List.flatMap_cons, List.flatMap_nil, List.append_nil]
    have h1 : (1 + k - 1) * P = k * P := by
      congr 1
      omega
    rw [h1, ← List.take_add]
    congr 1
    rw [Nat.succ_mul]

/-- C3 (confirmed): the `fetchAllPages` loop terminates, and stops
fetching, exactly at the first page whose record count is strictly less
than the requested page size (a zero-length page included): with pages
1..m-1 of exactly the requested size and page m short, every full page
causes exactly one further request and the short page m ends the loop
with no further requests — the requests issued are exactly pages 1..m. -/
theorem fetchAllPages_stops_on_short_page {T : Type} (serve : Nat → Except String (List T))
    (f : Nat → List T) (pp : Option Nat) (P m : Nat) (d : List T) (fuel : Nat)
    (hpp : resolvePerPage pp = P) (hm : 1 ≤ m)
    (hfull : ∀ j, 1 ≤ j → j < m → serve j = .ok (f j) ∧ (f j).length = P)
    (hlast : serve m = .ok d) (hshort : d.length < P) (hfuel : m ≤ fuel) :
    fetchAllPages serve pp fuel
      = some (List.range' 1 m, .ok ((List.range' 1 (m - 1)).flatMap f ++ d)) :=
  fetchAllPages_short_page_run serve f pp P m d fuel hpp hm hfull hlast hshort hfuel

/-- C1 (corrected): for every upstream collection of N records served
through a page-numbered endpoint with requested page size P,
`fetchAllPages` returns exactly those N records as the concatenation of
the pages in ascending page-number order (no reordering, no
deduplication), and it issues exactly ⌊N/P⌋ + 1 page requests — which
equals ⌈N/P⌉ except when N is a positive multiple of P, where the full
final page triggers one extra trailing empty-page request, and equals 1
when N = 0. -/
theorem fetchAllPages_complete {T : Type} (records : List T) (pp : Option Nat) (P fuel : Nat)
    (hpp : resolvePerPage pp = P) (hfuel : records.length / P + 1 ≤ fuel) :
    fetchAllPages (servePages records P) pp fuel
      = some (List.range' 1 (records.length / P + 1), .ok records) ∧
    (List.range' 1 (records.length / P + 1)).length = records.length / P + 1 := by
  have hP : 0 < P := hpp ▸ resolvePerPage_pos pp
  refine ⟨?_, by simp⟩
  have hdm := Nat.div_add_mod records.length P
  have hrem : records.length - records.length / P * P = records.length % P := by
    rw [Nat.mul_comm P (records.length / P)] at hdm
    omega
  have hmodlt : records.length % P < P := Nat.mod_lt _ hP
  have hlt : records.length - records.length / P * P < P := by
    rw [hrem]
    exact hmodlt
  have happ := fetchAllPages_short_page_run (servePages records P)
    (fun j => (records.drop ((j - 1) * P)).take P) pp P (records.length / P + 1)
    ((records.drop ((records.length / P) * P)).take P) fuel hpp
    (Nat.succ_le_succ (Nat.zero_le _))
    (fun j h1 h2 => by
      obtain ⟨j', rfl⟩ : ∃ j', j = j' + 1 := ⟨j - 1, by omega⟩
      refine ⟨rfl, ?_⟩
      have hj' : j' + 1 ≤ records.length / P := Nat.lt_succ_iff.1 h2
      have hle : (j' + 1) * P ≤ records.length :=
        le_trans (Nat.mul_le_mul_right P hj') (Nat.div_mul_le_self _ _)
      have hsucc : (j' + 1) * P = j' * P + P := Nat.succ_mul j' P
      have hmin : P ≤ records.length - j' * P := by omega
      show ((records.drop (j' * P)).take P).length = P
      rw [List.length_take, List.length_drop]
      exact Nat.min_eq_left hmin
    )
    rfl
    (by
      show ((records.drop (records.length / P * P)).take P).length < P
      rw [List.length_take, List.length_drop]
      exact lt_of_le_of_lt (Nat.min_le_right _ _) hlt
    )
    hfuel
  rw [happ]
  have hm1 : records.length / P + 1 - 1 = records.length / P := rfl
  rw [hm1, slices_flatMap records P (records.length / P)]
  have htake : (records.drop (records.length / P * P)).take P
      = records.drop (records.length / P * P) := by
    apply List.take_of_length_le
    rw [List.length_drop]
    omega
  rw [htake, List.take_append_drop]

/-- C1 counterexample: with N = 1 record and page size P = 1 the code
issues 2 page requests (pages 1 and 2 — the full first page triggers one
further, empty, request), while the claim demands ⌈N/P⌉ = (1+1-1)/1 = 1
requests. -/
theorem fetchAllPages_request_count_cex :
    fetchAllPages (servePages [0] 1) (some 1) 2 = some ([1, 2], Except.ok [0]) ∧
    ([1, 2] : List Nat).length ≠ (1 + 1 - 1) / 1 := by
  refine ⟨rfl, by decide⟩

/-- Witness for C1: three records with page size 2 are returned complete
and in order with ⌊3/2⌋ + 1 = 2 requests. -/
theorem fetchAllPages_complete_witness :
    fetchAllPages (servePages [5, 6, 7] 2) (some 2) 2 = some ([1, 2], Except.ok [5, 6, 7]) := by
  have h := fetchAllPages_complete [5, 6, 7] (some 2) 2 2 rfl (by decide)
  exact h.1

/-- Witness for C3: upstream pages [10,11], [12,13], [14] with P = 2 —
each full page causes one further request, the first short page ends the
loop: exactly the three requests 1,2,3 are made. -/
theorem fetchAllPages_stops_on_short_page_witness :
    fetchAllPages serve3 (some 2) 3 = some ([1, 2, 3], Except.ok [10, 11, 12, 13, 14]) := by
  have h := fetchAllPages_stops_on_short_page serve3 f3 (some 2) 2 3 [14] 3 rfl (by decide)
    (fun j h1 h2 => by interval_cases j <;> exact ⟨rfl, rfl⟩) rfl (by decide) (by decide)
  exact h

/-- Witness for C6: the first page is full, the second request fails;
the aggregate is the error alone. -/
theorem fetchAllPages_error_aborts_witness :
    fetchAllPages serveE (some 2) 2 = some ([1, 2], Except.error "boom") := by
  have h := fetchAllPages_error_aborts serveE fE (some 2) 2 2 "boom" 2 rfl (by decide)
    (fun j h1 h2 => by
      interval_cases j
      exact ⟨rfl, rfl⟩) rfl (by decide)
  exact h

/-! ## Gateway error normalization (C5) -/


/-- C5 counterexample: the claim "if the upstream response body carries
an errors field, the message is the serialized errors payload" fails when
the field is present but JS-falsy (`errors: null`): the code falls
through to the unknown-error marker instead of the serialization "null";
and the claim "a caller never receives an empty error" fails for an
`Error` whose own message is empty — the raised message is "". -/
theorem handleError_falsy_errors_cex :
    handleError demoErrNull = "Unknown error occurred in CanvasClient" ∧
    jsonStringify Json.null = "null" ∧
    handleError demoErrNull ≠ jsonStringify Json.null ∧
    handleError demoErrEmptyMsg = "" := by
  refine ⟨rfl, rfl, by decide, rfl⟩

/-- C5 (corrected): every failing Gateway operation (get, post, put,
delete) raises exactly one normalized error, `handleError` of the caught
failure, whose message follows this precedence: if the chain
`error.response?.data?.errors` yields a truthy value, the message is the
serialized errors payload; otherwise, if the failure is an `Error`, the
message is that Error's own description; otherwise the message is the
fixed unknown-error marker — so the caller never receives an undefined
error, though the message can be empty when the Error's own description
was empty. -/
theorem gateway_error_normalization {T : Type} (e : JsError) :
    @CanvasClient.get T (.error e) = .error (handleError e) ∧
    @CanvasClient.post T (.error e) = .error (handleError e) ∧
    @CanvasClient.put T (.error e) = .error (handleError e) ∧
    @CanvasClient.delete T (.error e) = .error (handleError e) ∧
    (∀ v, errResponseErrors e = some v → jsTruthy v = true →
      handleError e = jsonStringify v) ∧
    (errorsFieldTruthy e = false → e.isError = true → handleError e = e.message) ∧
    (errorsFieldTruthy e = false → e.isError = false →
      handleError e = "Unknown error occurred in CanvasClient") := by
  refine ⟨rfl, rfl, rfl, rfl, ?_, ?_, ?_⟩
  · intro v hv htr
    have htru : errorsFieldTruthy e = true := by
      simp only [errorsFieldTruthy, hv]
      exact htr
    rw [handleError, if_pos htru, hv, Option.getD_some]
  · intro hf hie
    rw [handleError, if_neg (by rw [hf]; exact Bool.false_ne_true), if_pos hie]
  · intro hf hie
    rw [handleError, if_neg (by rw [hf]; exact Bool.false_ne_true),
      if_neg (by rw [hie]; exact Bool.false_ne_true)]

/-- Witness for C5: a structured payload serializes into the message, a
plain transport `Error` passes its description through, and a bare throw
yields the fixed marker. -/
theorem gateway_error_normalization_witness :
    errResponseErrors demoErr1 = some demoErrPayload ∧
    jsTruthy demoErrPayload = true ∧
    handleError demoErr1 = "[\"boom\"]" ∧
    @CanvasClient.get Nat (.error demoErr1) = .error "[\"boom\"]" ∧
    errorsFieldTruthy demoErr2 = false ∧
    handleError demoErr2 = "socket hang up" ∧
    errorsFieldTruthy demoErr3 = false ∧
    handleError demoErr3 = "Unknown error occurred in CanvasClient" := by
  have h1 := (@gateway_error_normalization Nat demoErr1).2.2.2.2.1 demoErrPayload rfl rfl
  have h2 := (@gateway_error_normalization Nat demoErr2).2.2.2.2.2.1 rfl rfl
  have h3 := (@gateway_error_normalization Nat demoErr3).2.2.2.2.2.2 rfl rfl
  have hget := (@gateway_error_normalization Nat demoErr1).1
  refine ⟨rfl, rfl, by rw [h1]; rfl, ?_, rfl, by rw [h2]; rfl, rfl, by rw [h3]⟩
  rw [hget, h1]
  rfl
